import Mathlib

/-!
Verification of the JSON-RPC client engine of `ethrpc-rs` (shallow embedding).

The embedding follows the Rust sources:
* `src/jsonrpc/mod.rs` — envelope model (`Id`, `Request`, `Response`,
  `Error`, `ErrorCode`) and the hand-written `Deserialize` visitor for
  `Response`;
* `src/jsonrpc/batch.rs` — the batch correlation engine (`requests`,
  `results`, `try_call`, `call` and the `Batch` trait methods
  `into_requests`, `from_responses`, `values`, embedded here at the
  `Vec<(M, M::Params)>` instance, which is the fully general one);
* `src/http/buffered.rs` — the buffered client's background worker chunk
  dispatch (`join_requests`, `split_responses`) together with the error
  enum of `src/http/client.rs`.

Machine integers: the request-id counter is a Rust `AtomicU32` whose
`fetch_add(1, Relaxed)` wraps at `2 ^ 32`; it is modelled as a `Nat`
state with an explicit `% 2 ^ 32`.  Payload values, JSON codec errors and
transport errors are opaque to the engine (the Rust code is generic over
`serde` types there), so they appear as type parameters `V`, `J`, `T`
and the per-method decoding hooks as function parameters.
-/

deriving instance DecidableEq for Except

namespace Ethrpc

/-- JSON RPC supported version (`enum Version { V2 }`, src/jsonrpc/mod.rs). -/
inductive Version where
  | v2
deriving DecidableEq

/-- An error code (`enum ErrorCode`, src/jsonrpc/mod.rs lines 301-320).
The carrier of the integer payloads is `Int` standing for Rust `i32`;
only comparisons are performed on it, never wrapping arithmetic. -/
inductive ErrorCode where
  | parseError
  | invalidRequest
  | methodNotFound
  | invalidParams
  | internalError
  | serverError (code : Int)
  | reserved (code : Int)
  | other (code : Int)
deriving DecidableEq

/-- `impl From<i32> for ErrorCode` (src/jsonrpc/mod.rs lines 322-336).
The Rust `match` tests its arms in order; the overlapping ranges are
reproduced here by an ordered `if` chain. -/
def ErrorCode.fromI32 (code : Int) : ErrorCode :=
  if code = -32700 then .parseError
  else if code = -32600 then .invalidRequest
  else if code = -32601 then .methodNotFound
  else if code = -32602 then .invalidParams
  else if code = -32603 then .internalError
  else if -32099 ≤ code ∧ code ≤ -32000 then .serverError code
  else if -32768 ≤ code ∧ code ≤ -32100 then .reserved code
  else .other code

/-- `impl From<ErrorCode> for i32` (src/jsonrpc/mod.rs lines 338-351). -/
def ErrorCode.toI32 : ErrorCode → Int
  | .parseError => -32700
  | .invalidRequest => -32600
  | .methodNotFound => -32601
  | .invalidParams => -32602
  | .internalError => -32603
  | .serverError code => code
  | .reserved code => code
  | .other code => code

/-- An RPC error carried by a response (`struct Error`,
src/jsonrpc/mod.rs lines 279-287).  `V` is the opaque JSON value type of
the `data` field. -/
structure RpcError (V : Type) where
  code : ErrorCode
  message : String
  data : V
deriving DecidableEq

/-- Response object (`struct Response`, src/jsonrpc/mod.rs lines
141-147).  `result : Result<Value, Error>` becomes `Except (RpcError V) V`
with `Except.ok` as the success constructor; the id is an optional `u32`
modelled as `Option Nat`. -/
structure Response (V : Type) where
  jsonrpc : Version
  result : Except (RpcError V) V
  id : Option Nat
deriving DecidableEq

/-- Deserialization errors raised by the hand-written `Deserialize`
visitor for `Response` (the `de::Error::{duplicate_field, missing_field,
custom}` calls in src/jsonrpc/mod.rs lines 186-241). -/
inductive DeError where
  | duplicateField (name : String)
  | missingField (name : String)
  | custom (msg : String)
deriving DecidableEq

/-- One key/value entry of the JSON object being deserialized into a
`Response`, with the value already decoded by the corresponding
`map.next_value()?` call (src/jsonrpc/mod.rs lines 195-221).  Unknown
keys are rejected by the `Key` enum before this point, so only the four
known fields occur. -/
inductive ResponseField (V : Type) where
  | jsonrpc (v : Version)
  | result (v : V)
  | error (e : RpcError V)
  | id (i : Nat)
deriving DecidableEq

/-- Accumulator of the visitor loop: the four `let mut ... = None`
locals of `visit_map` (src/jsonrpc/mod.rs lines 190-193). -/
structure VisitAcc (V : Type) where
  jsonrpc : Option Version
  result : Option V
  error : Option (RpcError V)
  id : Option Nat
deriving DecidableEq

/-- The `while let Some(key) = map.next_key()?` loop of `visit_map`
(src/jsonrpc/mod.rs lines 195-222): each field may be set at most once,
a second occurrence raises `duplicate_field`. -/
def visitLoop {V : Type} : List (ResponseField V) → VisitAcc V → Except DeError (VisitAcc V)
  | [], acc => .ok acc
  | .jsonrpc v :: rest, acc =>
    match acc.jsonrpc with
    | some _ => .error (.duplicateField "jsonrpc")
    | none => visitLoop rest { acc with jsonrpc := some v }
  | .result v :: rest, acc =>
    match acc.result with
    | some _ => .error (.duplicateField "result")
    | none => visitLoop rest { acc with result := some v }
  | .error e :: rest, acc =>
    match acc.error with
    | some _ => .error (.duplicateField "error")
    | none => visitLoop rest { acc with error := some e }
  | .id i :: rest, acc =>
    match acc.id with
    | some _ => .error (.duplicateField "id")
    | none => visitLoop rest { acc with id := some i }

/-- Final assembly of the deserialized `Response` (src/jsonrpc/mod.rs
lines 230-240): `jsonrpc` is mandatory, and of `result`/`error` a
present `result` takes precedence, a lone `error` is kept, and neither
present is a decode error. -/
def deserializeResponse {V : Type} (fields : List (ResponseField V)) :
    Except DeError (Response V) :=
  match visitLoop fields ⟨none, none, none, none⟩ with
  | .error e => .error e
  | .ok acc =>
    match acc.jsonrpc with
    | none => .error (.missingField "jsonrpc")
    | some v =>
      match acc.result, acc.error with
      | some r, _ => .ok { jsonrpc := v, result := .ok r, id := acc.id }
      | none, some e => .ok { jsonrpc := v, result := .error e, id := acc.id }
      | none, none => .error (.custom "missing result or error field")

/-- A request object (`struct Request`, src/jsonrpc/mod.rs lines 95-102).
The method name is carried as a plain string (`Method(Cow<str>)`). -/
structure Request (V : Type) where
  jsonrpc : Version
  method : String
  params : V
  id : Nat
deriving DecidableEq

/-- `Id::next` (src/jsonrpc/mod.rs lines 66-71): `fetch_add(1, Relaxed)`
on an `AtomicU32` returns the previous counter value and stores the
incremented value, wrapping at `2 ^ 32`.  The atomic cell is modelled as
explicit counter state. -/
def Id.next (counter : Nat) : Nat × Nat :=
  (counter, (counter + 1) % 2 ^ 32)

/-- `Request::new` (src/jsonrpc/mod.rs lines 104-117).  The params
serialization hook `Value::new(params, M::serialize_params)?` runs
before `Id::next()` (struct fields are evaluated in order), so a failed
serialization consumes no id; its outcome is passed in as
`params : Except J V`. -/
def Request.new {V J : Type} (name : String) (params : Except J V) (counter : Nat) :
    Except J (Request V × Nat) :=
  match params with
  | .error e => .error e
  | .ok p =>
    let next := Id.next counter
    .ok ({ jsonrpc := .v2, method := name, params := p, id := next.1 }, next.2)

/-- The error enum of the HTTP client (`enum Error`,
src/http/client.rs lines 107-120): JSON codec errors (`Arc<JsonError>`),
transport errors (`Arc<reqwest::Error>`), non-success HTTP statuses,
remote JSON-RPC errors, and the batch correlation error (the unit struct
`batch::Error` of src/jsonrpc/batch.rs lines 221-223).  It instantiates
the generic `E` bound of the batch engine. -/
inductive HttpClientError (V J T : Type) where
  | json (e : J)
  | http (e : T)
  | status (code : Nat) (body : String)
  | rpc (e : RpcError V)
  | batch
deriving DecidableEq

/-- `Error::duplicate` (src/http/client.rs lines 122-136): clones each
variant; the `Arc`-wrapped payloads are shared, which for pure values is
the identity on the payload. -/
def HttpClientError.duplicate {V J T : Type} :
    HttpClientError V J T → HttpClientError V J T
  | .json e => .json e
  | .http e => .http e
  | .status code body => .status code body
  | .rpc e => .rpc e
  | .batch => .batch

namespace Batch

/-- `Batch::into_requests` at the `Vec<(M, M::Params)>` instance
(src/jsonrpc/batch.rs lines 206-210): build one `Request` per pair in
submission order, threading the id counter; the first serialization
failure aborts (`collect` over `Result`). -/
def intoRequests {V J : Type} :
    List (String × Except J V) → Nat → Except J (List (Request V) × Nat)
  | [], c => .ok ([], c)
  | (name, params) :: rest, c =>
    match Request.new name params c with
    | .error e => .error e
    | .ok (req, c') =>
      match intoRequests rest c' with
      | .error e => .error e
      | .ok (reqs, c'') => .ok (req :: reqs, c'')

/-- `requests` (src/jsonrpc/batch.rs lines 75-82): the request list plus
the parallel list of their ids. -/
def requests {V J : Type} (batch : List (String × Except J V)) (c : Nat) :
    Except J ((List (Request V) × List Nat) × Nat) :=
  match intoRequests batch c with
  | .error e => .error e
  | .ok (reqs, c') => .ok ((reqs, reqs.map (·.id)), c')

end Batch

/-- `Response::result::<M>` (src/jsonrpc/mod.rs lines 149-161): a remote
error is returned as an inner `Err`; a success value is decoded by the
method's result hook, whose failure is the outer codec error.  The hook
`M::deserialize_result` is the parameter `decode`. -/
def responseResultM {V J R : Type} (decode : V → Except J R) (resp : Response V) :
    Except J (Except (RpcError V) R) :=
  match resp.result with
  | .ok value => (decode value).map Except.ok
  | .error err => .ok (.error err)

/-- Insertion step of the sort modelling `sort_unstable_by_key`
(ascending by key). -/
def insertByKey {α : Type} (key : α → Nat) (a : α) : List α → List α
  | [] => [a]
  | b :: l => if key a ≤ key b then a :: b :: l else b :: insertByKey key a l

/-- Comparison sort ascending by key, modelling
`sort_unstable_by_key` (src/jsonrpc/batch.rs line 93).  The Rust sort is
an unspecified unstable comparison sort; every comparison sort computes
the same output on the inputs reasoned about below (distinct keys, or
inputs rejected before the sort result is consumed). -/
def sortByKey {α : Type} (key : α → Nat) : List α → List α
  | [] => []
  | a :: l => insertByKey key a (sortByKey key l)

namespace Batch

/-- `Batch::from_responses` at the `Vec` instance (src/jsonrpc/batch.rs
lines 212-214): decode each response in order; the first codec error
aborts (`collect` over `Result`). -/
def fromResponses {V J R : Type} (decode : V → Except J R) :
    List (Response V) → Except J (List (Except (RpcError V) R))
  | [] => .ok []
  | resp :: rest =>
    match responseResultM decode resp with
    | .error e => .error e
    | .ok r =>
      match fromResponses decode rest with
      | .error e => .error e
      | .ok rs => .ok (r :: rs)

/-- `results` (src/jsonrpc/batch.rs lines 84-104): reject a response
count mismatch or a missing id; sort responses ascending by id; reject
any pairing mismatch against the request ids; then decode.  The
`response.id.unwrap()` calls are guarded by the `is_none` check and
modelled by `Option.getD 0`. -/
def results {V J T R : Type} (decode : V → Except J R) (ids : List Nat)
    (responses : List (Response V)) :
    Except (HttpClientError V J T) (List (Except (RpcError V) R)) :=
  if ids.length != responses.length || responses.any (fun r => r.id.isNone) then
    .error .batch
  else if ((sortByKey (fun r => r.id.getD 0) responses).zip ids).any
      (fun p => p.1.id.getD 0 != p.2) then
    .error .batch
  else
    match fromResponses decode (sortByKey (fun r => r.id.getD 0) responses) with
    | .error e => .error (.json e)
    | .ok rs => .ok rs

/-- `try_call` (src/jsonrpc/batch.rs lines 47-56): build the requests,
hand them to the roundtrip, correlate the responses. -/
def tryCall {V J T R : Type} (decode : V → Except J R)
    (batch : List (String × Except J V))
    (roundtrip : List (Request V) → Except (HttpClientError V J T) (List (Response V)))
    (c : Nat) : Except (HttpClientError V J T) (List (Except (RpcError V) R)) :=
  match requests batch c with
  | .error e => .error (.json e)
  | .ok ((reqs, ids), _) =>
    match roundtrip reqs with
    | .error e => .error e
    | .ok responses => results decode ids responses

/-- `Batch::values` at the `Vec` instance (src/jsonrpc/batch.rs lines
216-218): fold the per-call results into all-or-nothing values; the
first per-call JSON-RPC error aborts (`collect` over `Result`). -/
def values {V R : Type} : List (Except (RpcError V) R) → Except (RpcError V) (List R)
  | [] => .ok []
  | .error e :: _ => .error e
  | .ok r :: rest =>
    match values rest with
    | .error e => .error e
    | .ok rs => .ok (r :: rs)

/-- `call` (src/jsonrpc/batch.rs lines 17-26): `try_call` then
`B::values`, the per-call error converted into the caller error type
(`E: From<jsonrpc::Error>`). -/
def call {V J T R : Type} (decode : V → Except J R)
    (batch : List (String × Except J V))
    (roundtrip : List (Request V) → Except (HttpClientError V J T) (List (Response V)))
    (c : Nat) : Except (HttpClientError V J T) (List R) :=
  match tryCall decode batch roundtrip c with
  | .error e => .error e
  | .ok rs =>
    match values rs with
    | .error e => .error (.rpc e)
    | .ok vs => .ok vs

end Batch

/-- A pending call of the buffered client (`struct Call`,
src/http/buffered.rs lines 27-30): the serialized request (`W` stands
for the wire string) and its single-use completion sink, identified by a
tag; a dispatch is recorded as the list of (sink, outcome) deliveries it
performs. -/
structure PendingCall (W : Type) where
  request : W
  sink : Nat

/-- `join_requests` (src/http/buffered.rs lines 153-168) builds the wire
batch body `[r1,r2,...]` from the chunk's serialized requests; the
string concatenation is modelled as the list of its elements. -/
def joinRequests {W : Type} (chunk : List (PendingCall W)) : List W :=
  chunk.map (·.request)

/-- `split_responses` (src/http/buffered.rs lines 170-178): on a
successful roundtrip the response array is split into its elements in
wire order (the `serde_json::from_str::<Vec<Value>>` parse is folded
into the roundtrip result, a parse failure being its `.json` error case,
and the `to_string` re-serialization of each element is the identity);
on any failure every one of the `n` slots gets
`Err(Error::Batch(batch::Error))`. -/
def splitResponses {W V J T : Type} (n : Nat)
    (responses : Except (HttpClientError V J T) (List W)) :
    List (Except (HttpClientError V J T) W) :=
  match responses with
  | .ok rs => rs.map Except.ok
  | .error _ => List.replicate n (Except.error .batch)

/-- One chunk iteration of `Buffered::background_worker`
(src/http/buffered.rs lines 64-84): an empty chunk does nothing, a
single call is sent alone through `client.roundtrip`, and a chunk of
`n ≥ 2` calls is joined into one wire batch whose split responses are
zipped with the chunk in order, each outcome sent to that call's sink. -/
def backgroundDispatch {W V J T : Type}
    (single : W → Except (HttpClientError V J T) W)
    (batchRt : List W → Except (HttpClientError V J T) (List W)) :
    List (PendingCall W) → List (Nat × Except (HttpClientError V J T) W)
  | [] => []
  | [call] => [(call.sink, single call.request)]
  | chunk@(_ :: _ :: _) =>
    let responses := batchRt (joinRequests chunk)
    (chunk.zip (splitResponses chunk.length responses)).map fun p => (p.1.sink, p.2)

/-- A wire message for concrete instances: a serialized request or
response string reduced to the id it carries and an opaque body. -/
structure WireMsg where
  id : Nat
  body : Nat
deriving DecidableEq

/-- Once the `result` slot of the visitor accumulator is set, a
successful run of the loop keeps it. -/
theorem visitLoop_result_some {V : Type} (v : V) :
    ∀ (fields : List (ResponseField V)) (j : Option Version)
      (er : Option (RpcError V)) (i : Option Nat) (out : VisitAcc V),
      visitLoop fields ⟨j, some v, er, i⟩ = .ok out → out.result = some v := by
  intro fields
  induction fields with
  | nil =>
    intro j er i out h
    simp only [visitLoop] at h
    cases h
    rfl
  | cons f rest ih =>
    intro j er i out h
    cases f with
    | jsonrpc v' =>
      cases j with
      | some w => simp only [visitLoop] at h; cases h
      | none =>
        simp only [visitLoop] at h
        exact ih _ _ _ _ h
    | result v' => simp only [visitLoop] at h; cases h
    | error e' =>
      cases er with
      | some w => simp only [visitLoop] at h; cases h
      | none =>
        simp only [visitLoop] at h
        exact ih _ _ _ _ h
    | id i' =>
      cases i with
      | some w => simp only [visitLoop] at h; cases h
      | none =>
        simp only [visitLoop] at h
        exact ih _ _ _ _ h

/-- Once the `result` slot is set, a successful run of the loop implies
no further `result` field occurred (it would have raised
`duplicate_field`). -/
theorem visitLoop_result_absorb {V : Type} (w : V) :
    ∀ (fields : List (ResponseField V)) (j : Option Version)
      (er : Option (RpcError V)) (i : Option Nat) (out : VisitAcc V),
      visitLoop fields ⟨j, some w, er, i⟩ = .ok out →
      ∀ v : V, ResponseField.result v ∉ fields := by
  intro fields
  induction fields with
  | nil =>
    intro j er i out _ v hv
    cases hv
  | cons f rest ih =>
    intro j er i out h v hv
    cases f with
    | jsonrpc v' =>
      cases j with
      | some u => simp only [visitLoop] at h; cases h
      | none =>
        simp only [visitLoop] at h
        rcases List.mem_cons.mp hv with heq | hmem
        · cases heq
        · exact ih _ _ _ _ h v hmem
    | result v' => simp only [visitLoop] at h; cases h
    | error e' =>
      cases er with
      | some u => simp only [visitLoop] at h; cases h
      | none =>
        simp only [visitLoop] at h
        rcases List.mem_cons.mp hv with heq | hmem
        · cases heq
        · exact ih _ _ _ _ h v hmem
    | id i' =>
      cases i with
      | some u => simp only [visitLoop] at h; cases h
      | none =>
        simp only [visitLoop] at h
        rcases List.mem_cons.mp hv with heq | hmem
        · cases heq
        · exact ih _ _ _ _ h v hmem

/-- A successful run of the loop over fields containing `result v` ends
with the `result` slot holding `v` (duplicates would have failed). -/
theorem visitLoop_result_mem {V : Type} (v : V) :
    ∀ (fields : List (ResponseField V)) (j : Option Version) (r : Option V)
      (er : Option (RpcError V)) (i : Option Nat) (out : VisitAcc V),
      visitLoop fields ⟨j, r, er, i⟩ = .ok out → ResponseField.result v ∈ fields →
      out.result = some v := by
  intro fields
  induction fields with
  | nil =>
    intro j r er i out _ hv
    cases hv
  | cons f rest ih =>
    intro j r er i out h hv
    rcases List.mem_cons.mp hv with heq | hmem
    · cases heq
      cases r with
      | some w => simp only [visitLoop] at h; cases h
      | none =>
        simp only [visitLoop] at h
        exact visitLoop_result_some v rest _ _ _ _ h
    · cases f with
      | jsonrpc v' =>
        cases j with
        | some w => simp only [visitLoop] at h; cases h
        | none =>
          simp only [visitLoop] at h
          exact ih _ _ _ _ _ h hmem
      | result v' =>
        cases r with
        | some w => simp only [visitLoop] at h; cases h
        | none =>
          simp only [visitLoop] at h
          exact absurd hmem (visitLoop_result_absorb v' rest _ _ _ _ h v)
      | error e' =>
        cases er with
        | some w => simp only [visitLoop] at h; cases h
        | none =>
          simp only [visitLoop] at h
          exact ih _ _ _ _ _ h hmem
      | id i' =>
        cases i with
        | some w => simp only [visitLoop] at h; cases h
        | none =>
          simp only [visitLoop] at h
          exact ih _ _ _ _ _ h hmem

/-- A successful run of the loop over fields containing no `result`
field leaves the `result` slot empty. -/
theorem visitLoop_result_none {V : Type} :
    ∀ (fields : List (ResponseField V)) (j : Option Version)
      (er : Option (RpcError V)) (i : Option Nat) (out : VisitAcc V),
      visitLoop fields ⟨j, none, er, i⟩ = .ok out →
      (∀ v : V, ResponseField.result v ∉ fields) → out.result = none := by
  intro fields
  induction fields with
  | nil =>
    intro j er i out h _
    simp only [visitLoop] at h
    cases h
    rfl
  | cons f rest ih =>
    intro j er i out h hno
    have hno' : ∀ v : V, ResponseField.result v ∉ rest := fun v hv =>
      hno v (List.mem_cons_of_mem _ hv)
    cases f with
    | jsonrpc v' =>
      cases j with
      | some w => simp only [visitLoop] at h; cases h
      | none =>
        simp only [visitLoop] at h
        exact ih _ _ _ _ h hno'
    | result v' =>
      exact absurd (List.mem_cons_self _ _) (hno v')
    | error e' =>
      cases er with
      | some w => simp only [visitLoop] at h; cases h
      | none =>
        simp only [visitLoop] at h
        exact ih _ _ _ _ h hno'
    | id i' =>
      cases i with
      | some w => simp only [visitLoop] at h; cases h
      | none =>
        simp only [visitLoop] at h
        exact ih _ _ _ _ h hno'

/-- Once the `error` slot of the accumulator is set, a successful run of
the loop keeps it. -/
theorem visitLoop_error_some {V : Type} (e : RpcError V) :
    ∀ (fields : List (ResponseField V)) (j : Option Version) (r : Option V)
      (i : Option Nat) (out : VisitAcc V),
      visitLoop fields ⟨j, r, some e, i⟩ = .ok out → out.error = some e := by
  intro fields
  induction fields with
  | nil =>
    intro j r i out h
    simp only [visitLoop] at h
    cases h
    rfl
  | cons f rest ih =>
    intro j r i out h
    cases f with
    | jsonrpc v' =>
      cases j with
      | some w => simp only [visitLoop] at h; cases h
      | none =>
        simp only [visitLoop] at h
        exact ih _ _ _ _ h
    | result v' =>
      cases r with
      | some w => simp only [visitLoop] at h; cases h
      | none =>
        simp only [visitLoop] at h
        exact ih _ _ _ _ h
    | error e' => simp only [visitLoop] at h; cases h
    | id i' =>
      cases i with
      | some w => simp only [visitLoop] at h; cases h
      | none =>
        simp only [visitLoop] at h
        exact ih _ _ _ _ h

/-- Once the `error` slot is set, a successful run of the loop implies
no further `error` field occurred. -/
theorem visitLoop_error_absorb {V : Type} (w : RpcError V) :
    ∀ (fields : List (ResponseField V)) (j : Option Version) (r : Option V)
      (i : Option Nat) (out : VisitAcc V),
      visitLoop fields ⟨j, r, some w, i⟩ = .ok out →
      ∀ e : RpcError V, ResponseField.error e ∉ fields := by
  intro fields
  induction fields with
  | nil =>
    intro j r i out _ e he
    cases he
  | cons f rest ih =>
    intro j r i out h e he
    cases f with
    | jsonrpc v' =>
      cases j with
      | some u => simp only [visitLoop] at h; cases h
      | none =>
        simp only [visitLoop] at h
        rcases List.mem_cons.mp he with heq | hmem
        · cases heq
        · exact ih _ _ _ _ h e hmem
    | result v' =>
      cases r with
      | some u => simp only [visitLoop] at h; cases h
      | none =>
        simp only [visitLoop] at h
        rcases List.mem_cons.mp he with heq | hmem
        · cases heq
        · exact ih _ _ _ _ h e hmem
    | error e' => simp only [visitLoop] at h; cases h
    | id i' =>
      cases i with
      | some u => simp only [visitLoop] at h; cases h
      | none =>
        simp only [visitLoop] at h
        rcases List.mem_cons.mp he with heq | hmem
        · cases heq
        · exact ih _ _ _ _ h e hmem

/-- A successful run of the loop over fields containing `error e` ends
with the `error` slot holding `e` (duplicates would have failed). -/
theorem visitLoop_error_mem {V : Type} (e : RpcError V) :
    ∀ (fields : List (ResponseField V)) (j : Option Version) (r : Option V)
      (er : Option (RpcError V)) (i : Option Nat) (out : VisitAcc V),
      visitLoop fields ⟨j, r, er, i⟩ = .ok out → ResponseField.error e ∈ fields →
      out.error = some e := by
  intro fields
  induction fields with
  | nil =>
    intro j r er i out _ he
    cases he
  | cons f rest ih =>
    intro j r er i out h he
    rcases List.mem_cons.mp he with heq | hmem
    · cases heq
      cases er with
      | some w => simp only [visitLoop] at h; cases h
      | none =>
        simp only [visitLoop] at h
        exact visitLoop_error_some e rest _ _ _ _ h
    · cases f with
      | jsonrpc v' =>
        cases j with
        | some w => simp only [visitLoop] at h; cases h
        | none =>
          simp only [visitLoop] at h
          exact ih _ _ _ _ _ h hmem
      | result v' =>
        cases r with
        | some w => simp only [visitLoop] at h; cases h
        | none =>
          simp only [visitLoop] at h
          exact ih _ _ _ _ _ h hmem
      | error e' =>
        cases er with
        | some w => simp only [visitLoop] at h; cases h
        | none =>
          simp only [visitLoop] at h
          exact absurd hmem (visitLoop_error_absorb e' rest _ _ _ _ h e)
      | id i' =>
        cases i with
        | some w => simp only [visitLoop] at h; cases h
        | none =>
          simp only [visitLoop] at h
          exact ih _ _ _ _ _ h hmem

/-- A successful run of the loop over fields containing no `error`
field leaves the `error` slot empty. -/
theorem visitLoop_error_none {V : Type} :
    ∀ (fields : List (ResponseField V)) (j : Option Version) (r : Option V)
      (i : Option Nat) (out : VisitAcc V),
      visitLoop fields ⟨j, r, none, i⟩ = .ok out →
      (∀ e : RpcError V, ResponseField.error e ∉ fields) → out.error = none := by
  intro fields
  induction fields with
  | nil =>
    intro j r i out h _
    simp only [visitLoop] at h
    cases h
    rfl
  | cons f rest ih =>
    intro j r i out h hno
    have hno' : ∀ e : RpcError V, ResponseField.error e ∉ rest := fun e he =>
      hno e (List.mem_cons_of_mem _ he)
    cases f with
    | jsonrpc v' =>
      cases j with
      | some w => simp only [visitLoop] at h; cases h
      | none =>
        simp only [visitLoop] at h
        exact ih _ _ _ _ h hno'
    | result v' =>
      cases r with
      | some w => simp only [visitLoop] at h; cases h
      | none =>
        simp only [visitLoop] at h
        exact ih _ _ _ _ h hno'
    | error e' =>
      exact absurd (List.mem_cons_self _ _) (hno e')
    | id i' =>
      cases i with
      | some w => simp only [visitLoop] at h; cases h
      | none =>
        simp only [visitLoop] at h
        exact ih _ _ _ _ h hno'

/-- Mapping over a zip with a constant right-hand list of matching
length is a plain map. -/
theorem zip_replicate_map {α β γ : Type} (f : α × β → γ) (x : β) :
    ∀ l : List α, (l.zip (List.replicate l.length x)).map f = l.map fun a => f (a, x) := by
  intro l
  induction l with
  | nil => rfl
  | cons a t ih => simp only [List.length_cons, List.replicate_succ, List.zip_cons_cons,
      List.map_cons, ih]

/-- C2 (amended): when the background worker dispatches a chunk of
`n ≥ 2` pending calls and the wire roundtrip succeeds, each pending
call's sink receives the wire response at the same position as the
call's own position in the chunk — positional pairing, not id-based
correlation.  In particular every caller receives the response carrying
its own request id exactly when the node returns the batch response
array in request order. -/
theorem buffered_positional_delivery {W V J T : Type}
    (single : W → Except (HttpClientError V J T) W)
    (batchRt : List W → Except (HttpClientError V J T) (List W))
    (chunk : List (PendingCall W)) (responses : List W)
    (h2 : 2 ≤ chunk.length)
    (hrt : batchRt (joinRequests chunk) = .ok responses) :
    backgroundDispatch single batchRt chunk
      = (chunk.zip responses).map fun p => (p.1.sink, .ok p.2) := by
  match chunk, h2 with
  | c₁ :: c₂ :: rest, _ =>
    simp only [backgroundDispatch, hrt, splitResponses, List.zip_map_right,
      List.map_map]
    rfl

/-- Counterexample to C2 as stated: a chunk of two pending calls whose
requests carry ids 0 and 1; the node returns both responses, ids intact,
but in reversed array order.  The sink of the first call (request id 0)
receives the response carrying id 1, not the response whose id matches
its own request. -/
theorem buffered_reorder_cex :
    backgroundDispatch (W := WireMsg) (V := Unit) (J := Unit) (T := Unit)
        (fun w => .ok w) (fun _ => .ok [⟨1, 201⟩, ⟨0, 200⟩])
        [⟨⟨0, 100⟩, 10⟩, ⟨⟨1, 101⟩, 11⟩]
      = [(10, .ok ⟨1, 201⟩), (11, .ok ⟨0, 200⟩)]
    ∧ ([(10, Except.ok ⟨1, 201⟩), (11, Except.ok ⟨0, 200⟩)]
        : List (Nat × Except (HttpClientError Unit Unit Unit) WireMsg))
      ≠ [(10, .ok ⟨0, 200⟩), (11, .ok ⟨1, 201⟩)] :=
  ⟨rfl, by decide⟩

/-- Witness for C2 (amended): a concrete two-call chunk with the wire
responses in request order delivers to each sink its own response. -/
theorem buffered_positional_delivery_witness :
    2 ≤ ([⟨⟨0, 100⟩, 10⟩, ⟨⟨1, 101⟩, 11⟩] : List (PendingCall WireMsg)).length
    ∧ backgroundDispatch (W := WireMsg) (V := Unit) (J := Unit) (T := Unit)
        (fun w => .ok w) (fun _ => .ok [⟨0, 200⟩, ⟨1, 201⟩])
        [⟨⟨0, 100⟩, 10⟩, ⟨⟨1, 101⟩, 11⟩]
      = [(10, .ok ⟨0, 200⟩), (11, .ok ⟨1, 201⟩)] :=
  ⟨by decide,
   (buffered_positional_delivery (W := WireMsg) (V := Unit) (J := Unit) (T := Unit)
      (fun w => .ok w) (fun _ => .ok [⟨0, 200⟩, ⟨1, 201⟩])
      [⟨⟨0, 100⟩, 10⟩, ⟨⟨1, 101⟩, 11⟩] [⟨0, 200⟩, ⟨1, 201⟩]
      (by decide) rfl).trans rfl⟩

/-- C4 (amended): when the whole-chunk roundtrip fails for a chunk of
`J ≥ 2` pending calls, every one of the calls receives a failure, and
all of them receive the same one — the batch correlation error
`Error::Batch(batch::Error)`; the root cause of the failure is
discarded, not propagated. -/
theorem chunk_failure_fanout {W V J T : Type}
    (single : W → Except (HttpClientError V J T) W)
    (batchRt : List W → Except (HttpClientError V J T) (List W))
    (chunk : List (PendingCall W)) (e : HttpClientError V J T)
    (h2 : 2 ≤ chunk.length)
    (hrt : batchRt (joinRequests chunk) = .error e) :
    backgroundDispatch single batchRt chunk
      = chunk.map fun call => (call.sink, .error .batch) := by
  match chunk, h2 with
  | c₁ :: c₂ :: rest, _ =>
    simp only [backgroundDispatch, hrt, splitResponses]
    exact zip_replicate_map _ _ (c₁ :: c₂ :: rest)

/-- Counterexample to C4 as stated: two distinct transport failures
(HTTP status 500 and HTTP status 404) produce identical deliveries, each
pending call receiving the constant `Error::Batch(batch::Error)` — a
default error value carrying no diagnostic information about the root
cause; `Error::duplicate` is never involved. -/
theorem chunk_failure_root_cause_cex :
    backgroundDispatch (W := WireMsg) (V := Unit) (J := Unit) (T := Unit)
        (fun w => .ok w) (fun _ => .error (.status 500 "boom"))
        [⟨⟨0, 100⟩, 10⟩, ⟨⟨1, 101⟩, 11⟩]
      = [(10, .error .batch), (11, .error .batch)]
    ∧ backgroundDispatch (W := WireMsg) (V := Unit) (J := Unit) (T := Unit)
        (fun w => .ok w) (fun _ => .error (.status 404 "nope"))
        [⟨⟨0, 100⟩, 10⟩, ⟨⟨1, 101⟩, 11⟩]
      = [(10, .error .batch), (11, .error .batch)]
    ∧ (HttpClientError.batch : HttpClientError Unit Unit Unit) ≠ .status 500 "boom" :=
  ⟨rfl, rfl, by decide⟩

/-- Witness for C4 (amended): a concrete two-call chunk whose roundtrip
fails with an HTTP status error has the batch correlation error fanned
out to both sinks. -/
theorem chunk_failure_fanout_witness :
    2 ≤ ([⟨⟨0, 100⟩, 10⟩, ⟨⟨1, 101⟩, 11⟩] : List (PendingCall WireMsg)).length
    ∧ backgroundDispatch (W := WireMsg) (V := Unit) (J := Unit) (T := Unit)
        (fun w => .ok w) (fun _ => .error (.status 502 "bad gateway"))
        [⟨⟨0, 100⟩, 10⟩, ⟨⟨1, 101⟩, 11⟩]
      = [(10, .error .batch), (11, .error .batch)] :=
  ⟨by decide,
   (chunk_failure_fanout (W := WireMsg) (V := Unit) (J := Unit) (T := Unit)
      (fun w => .ok w) (fun _ => .error (.status 502 "bad gateway"))
      [⟨⟨0, 100⟩, 10⟩, ⟨⟨1, 101⟩, 11⟩] (.status 502 "bad gateway")
      (by decide) rfl).trans rfl⟩

/-- A successful `into_requests` produces one request per batch entry. -/
theorem intoRequests_length {V J : Type} :
    ∀ (calls : List (String × Except J V)) (c : Nat) (reqs : List (Request V)) (c' : Nat),
      Batch.intoRequests calls c = .ok (reqs, c') → reqs.length = calls.length := by
  intro calls
  induction calls with
  | nil =>
    intro c reqs c' h
    simp only [Batch.intoRequests] at h
    cases h
    rfl
  | cons p rest ih =>
    intro c reqs c' h
    obtain ⟨name, params⟩ := p
    simp only [Batch.intoRequests] at h
    cases hn : Request.new name params c with
    | error e => simp only [hn] at h; cases h
    | ok rc =>
      obtain ⟨req, c₁⟩ := rc
      simp only [hn] at h
      cases hr : Batch.intoRequests rest c₁ with
      | error e => simp only [hr] at h; cases h
      | ok rc₂ =>
        obtain ⟨reqs₂, c₂⟩ := rc₂
        simp only [hr] at h
        cases h
        simp [ih _ _ _ hr]

/-- A successful `requests` is a successful `into_requests` paired with
the projection of the request ids. -/
theorem requests_inv {V J : Type} {batch : List (String × Except J V)} {c : Nat}
    {reqs : List (Request V)} {ids : List Nat} {c' : Nat}
    (h : Batch.requests batch c = .ok ((reqs, ids), c')) :
    Batch.intoRequests batch c = .ok (reqs, c') ∧ ids = reqs.map (·.id) := by
  unfold Batch.requests at h
  cases hi : Batch.intoRequests batch c with
  | error e => simp only [hi] at h; cases h
  | ok rc =>
    obtain ⟨reqs₀, c₀⟩ := rc
    simp only [hi] at h
    rw [Except.ok.injEq, Prod.mk.injEq, Prod.mk.injEq] at h
    obtain ⟨⟨h₁, h₂⟩, h₃⟩ := h
    subst h₁
    subst h₂
    subst h₃
    exact ⟨rfl, rfl⟩

/-- C3: malformed batch rejection — if the roundtrip hands back a
response sequence whose length differs from the batch size, or any
response lacks an id, `try_call` returns the batch correlation error
(`batch::Error`), with no panic and no partial decode (the embedding is
total and the decode step is never reached). -/
theorem batch_malformed_rejection {V J T R : Type} (decode : V → Except J R)
    (batch : List (String × Except J V))
    (roundtrip : List (Request V) → Except (HttpClientError V J T) (List (Response V)))
    (c c' : Nat) (reqs : List (Request V)) (ids : List Nat)
    (responses : List (Response V))
    (hreq : Batch.requests batch c = .ok ((reqs, ids), c'))
    (hrt : roundtrip reqs = .ok responses)
    (hbad : responses.length ≠ batch.length ∨ ∃ r ∈ responses, r.id = none) :
    Batch.tryCall decode batch roundtrip c = .error .batch := by
  unfold Batch.tryCall
  simp only [hreq, hrt]
  obtain ⟨hi, hids⟩ := requests_inv hreq
  subst hids
  have hlen : (reqs.map (·.id)).length = batch.length := by
    simp [intoRequests_length batch c reqs c' hi]
  unfold Batch.results
  have hcond :
      ((reqs.map (·.id)).length != responses.length
        || responses.any fun r => r.id.isNone) = true := by
    rcases hbad with hb | ⟨r, hr, hid⟩
    · simp only [Bool.or_eq_true, bne_iff_ne]
      exact Or.inl (by omega)
    · simp only [Bool.or_eq_true, List.any_eq_true]
      exact Or.inr ⟨r, hr, by simp [hid]⟩
  rw [if_pos hcond]

/-- Witness for C3: a one-call batch answered with an empty response
array is rejected with the batch correlation error. -/
theorem batch_malformed_rejection_witness :
    Batch.requests (V := Nat) (J := Nat) [("m", .ok 1)] 0
      = .ok (([⟨.v2, "m", 1, 0⟩], [0]), 1)
    ∧ Batch.tryCall (T := Unit) (fun v : Nat => (Except.ok v : Except Nat Nat))
        [("m", .ok 1)] (fun _ => .ok []) 0 = .error .batch :=
  ⟨rfl,
   batch_malformed_rejection (fun v : Nat => (Except.ok v : Except Nat Nat))
     [("m", .ok 1)] (fun _ => .ok []) 0 1 [⟨.v2, "m", 1, 0⟩] [0] []
     rfl rfl (Or.inl (by decide))⟩

/-- Counterexample to C5 as stated: `try_call` on the empty batch does
invoke the supplied roundtrip (src/jsonrpc/batch.rs lines 53-55 have no
emptiness check) — a roundtrip that fails makes the empty-batch call
fail, instead of the claimed unconditional empty result. -/
theorem empty_batch_roundtrip_cex :
    Batch.tryCall (V := Nat) (J := Nat) (T := Unit)
        (fun v : Nat => (Except.ok v : Except Nat Nat)) []
        (fun _ => .error (.http ())) 0
      = .error (.http ())
    ∧ (Except.error (.http ())
        : Except (HttpClientError Nat Nat Unit) (List (Except (RpcError Nat) Nat)))
      ≠ .ok [] :=
  ⟨rfl, by decide⟩

/-- C5 (amended): `try_call`/`call` on the empty batch invoke the
roundtrip on the empty request list; the roundtrip's failure is
propagated, and if it returns the empty response list the result is the
empty results/values list. -/
theorem empty_batch_behavior {V J T R : Type} (decode : V → Except J R)
    (roundtrip : List (Request V) → Except (HttpClientError V J T) (List (Response V)))
    (c : Nat) :
    (∀ e, roundtrip [] = .error e → Batch.tryCall decode [] roundtrip c = .error e)
    ∧ (roundtrip [] = .ok [] →
        Batch.tryCall decode [] roundtrip c = .ok []
        ∧ Batch.call decode [] roundtrip c = .ok []) := by
  constructor
  · intro e he
    simp [Batch.tryCall, Batch.requests, Batch.intoRequests, he]
  · intro he
    constructor
    · simp [Batch.tryCall, Batch.requests, Batch.intoRequests, Batch.results,
        sortByKey, Batch.fromResponses, he]
    · simp [Batch.call, Batch.tryCall, Batch.requests, Batch.intoRequests,
        Batch.results, sortByKey, Batch.fromResponses, Batch.values, he]

/-- Witness for C5 (amended): concrete empty-batch calls, one with a
failing roundtrip and one with an empty successful roundtrip. -/
theorem empty_batch_behavior_witness :
    Batch.tryCall (V := Nat) (J := Nat) (T := Unit)
        (fun v : Nat => (Except.ok v : Except Nat Nat)) []
        (fun _ => .error (.status 500 "down")) 0 = .error (.status 500 "down")
    ∧ Batch.tryCall (V := Nat) (J := Nat) (T := Unit)
        (fun v : Nat => (Except.ok v : Except Nat Nat)) [] (fun _ => .ok []) 0 = .ok []
    ∧ Batch.call (V := Nat) (J := Nat) (T := Unit)
        (fun v : Nat => (Except.ok v : Except Nat Nat)) [] (fun _ => .ok []) 0 = .ok [] :=
  ⟨(empty_batch_behavior _ _ 0).1 _ rfl,
   ((empty_batch_behavior _ _ 0).2 rfl).1,
   ((empty_batch_behavior _ _ 0).2 rfl).2⟩

/-- C9: Values short-circuit on first per-call error — folding the
per-call results into values yields the first per-call JSON-RPC error in
submission order when one exists, the full list of success values in
submission order otherwise; and `call` is exactly `try_call` followed by
this fold (with the error injected into the caller error type). -/
theorem values_short_circuit {V J T R : Type} (decode : V → Except J R) :
    (∀ (vs : List R) (e : RpcError V) (suf : List (Except (RpcError V) R)),
        Batch.values (vs.map Except.ok ++ .error e :: suf) = .error e)
    ∧ (∀ vs : List R, Batch.values (V := V) (vs.map Except.ok) = .ok vs)
    ∧ (∀ (batch : List (String × Except J V))
         (roundtrip : List (Request V) → Except (HttpClientError V J T) (List (Response V)))
         (c : Nat) (rs : List (Except (RpcError V) R)),
        Batch.tryCall decode batch roundtrip c = .ok rs →
        Batch.call decode batch roundtrip c
          = match Batch.values rs with
            | .error e => .error (.rpc e)
            | .ok vs => .ok vs) := by
  refine ⟨?_, ?_, ?_⟩
  · intro vs e suf
    induction vs with
    | nil => rfl
    | cons v t ih => simp [Batch.values, ih]
  · intro vs
    induction vs with
    | nil => rfl
    | cons v t ih => simp only [List.map_cons, Batch.values, ih]
  · intro batch roundtrip c rs h
    unfold Batch.call
    simp only [h]

/-- Witness for C9: concrete folds — a middle error wins over later
entries, an all-success list folds to its values, and a one-call `call`
made of a successful `try_call` folds accordingly. -/
theorem values_short_circuit_witness :
    Batch.values [Except.ok 4, .error (⟨.other 1, "err", (0 : Nat)⟩ : RpcError Nat), .ok 5]
      = .error ⟨.other 1, "err", 0⟩
    ∧ Batch.values (V := Nat) [Except.ok (1 : Nat), .ok 2] = .ok [1, 2]
    ∧ Batch.call (V := Nat) (J := Nat) (T := Unit)
        (fun v : Nat => (Except.ok v : Except Nat Nat)) [("m", .ok 3)]
        (fun _ => .ok [⟨.v2, .ok 3, some 0⟩]) 0 = .ok [3] :=
  ⟨(values_short_circuit (V := Nat) (J := Nat) (T := Unit)
      (fun v : Nat => (Except.ok v : Except Nat Nat))).1 [4] ⟨.other 1, "err", 0⟩ [.ok 5],
   (values_short_circuit (V := Nat) (J := Nat) (T := Unit)
      (fun v : Nat => (Except.ok v : Except Nat Nat))).2.1 [1, 2],
   ((values_short_circuit (V := Nat) (J := Nat) (T := Unit)
      (fun v : Nat => (Except.ok v : Except Nat Nat))).2.2 [("m", .ok 3)]
      (fun _ => .ok [⟨.v2, .ok 3, some 0⟩]) 0 [.ok 3] rfl).trans rfl⟩

/-- Ids allocated by a successful `into_requests` run: starting from
counter `c < 2 ^ 32`, the k-th request receives id `(c + k) % 2 ^ 32`
and the final counter is `(c + n) % 2 ^ 32` — the `AtomicU32` wraps. -/
theorem intoRequests_ids {V J : Type} :
    ∀ (calls : List (String × Except J V)) (c : Nat) (reqs : List (Request V)) (c' : Nat),
      c < 2 ^ 32 → Batch.intoRequests calls c = .ok (reqs, c') →
      reqs.map (·.id) = (List.range calls.length).map (fun i => (c + i) % 2 ^ 32)
      ∧ c' = (c + calls.length) % 2 ^ 32 := by
  intro calls
  induction calls with
  | nil =>
    intro c reqs c' hc h
    simp only [Batch.intoRequests] at h
    cases h
    refine ⟨rfl, ?_⟩
    simp only [List.length_nil]
    omega
  | cons p rest ih =>
    intro c reqs c' hc h
    obtain ⟨name, params⟩ := p
    simp only [Batch.intoRequests] at h
    cases params with
    | error e => simp only [Request.new] at h; cases h
    | ok p =>
      simp only [Request.new, Id.next] at h
      cases hr : Batch.intoRequests rest ((c + 1) % 2 ^ 32) with
      | error e => simp only [hr] at h; cases h
      | ok rc =>
        obtain ⟨reqs₂, c₂⟩ := rc
        simp only [hr] at h
        rw [Except.ok.injEq, Prod.mk.injEq] at h
        obtain ⟨h₁, h₂⟩ := h
        subst h₁
        subst h₂
        have hc₁ : (c + 1) % 2 ^ 32 < 2 ^ 32 := by omega
        obtain ⟨hids, hc'⟩ := ih ((c + 1) % 2 ^ 32) reqs₂ c₂ hc₁ hr
        refine ⟨?_, by simp only [List.length_cons]; omega⟩
        simp only [List.map_cons, hids, List.length_cons, List.range_succ_eq_map,
          List.map_map]
        congr 1
        · omega
        · apply List.map_congr_left
          intro i _
          simp only [Function.comp_apply, Nat.succ_eq_add_one]
          omega

/-- C8 (amended): a sequence of `N` request constructions from a fresh
counter state `c`, provided the 32-bit counter does not wrap
(`c + N ≤ 2 ^ 32`), allocates ids `c, c + 1, ..., c + N - 1`: pairwise
distinct, strictly increasing in issuance order, and each construction
consumes exactly one id (the final counter is advanced by `N`, mod
`2 ^ 32`). -/
theorem id_alloc_monotone {V J : Type} (calls : List (String × Except J V))
    (c : Nat) (reqs : List (Request V)) (c' : Nat)
    (hinv : c < 2 ^ 32)
    (hok : Batch.intoRequests calls c = .ok (reqs, c'))
    (hnw : c + calls.length ≤ 2 ^ 32) :
    reqs.map (·.id) = (List.range calls.length).map (c + ·)
    ∧ (reqs.map (·.id)).Pairwise (· < ·)
    ∧ (reqs.map (·.id)).Nodup
    ∧ reqs.length = calls.length
    ∧ c' = (c + calls.length) % 2 ^ 32 := by
  obtain ⟨hids, hc'⟩ := intoRequests_ids calls c reqs c' hinv hok
  have hids' : reqs.map (·.id) = (List.range calls.length).map (c + ·) := by
    rw [hids]
    apply List.map_congr_left
    intro i hi
    have : i < calls.length := List.mem_range.mp hi
    omega
  have hpw : ((List.range calls.length).map (c + ·)).Pairwise (· < ·) :=
    (List.pairwise_lt_range calls.length).map (c + ·)
      (fun a b hab => Nat.add_lt_add_left hab c)
  refine ⟨hids', hids' ▸ hpw, ?_, intoRequests_length _ _ _ _ hok, hc'⟩
  exact (hids' ▸ hpw).imp Nat.ne_of_lt

/-- Witness for C8 (amended): two constructions from a fresh client
allocate ids 0 and 1, distinct and increasing, advancing the counter to
2. -/
theorem id_alloc_monotone_witness :
    Batch.intoRequests (V := Nat) (J := Nat) [("a", .ok 1), ("b", .ok 2)] 0
      = .ok ([⟨.v2, "a", 1, 0⟩, ⟨.v2, "b", 2, 1⟩], 2)
    ∧ ([⟨.v2, "a", 1, 0⟩, ⟨.v2, "b", 2, 1⟩] : List (Request Nat)).map (·.id)
      = (List.range 2).map (0 + ·)
    ∧ (([⟨.v2, "a", 1, 0⟩, ⟨.v2, "b", 2, 1⟩] : List (Request Nat)).map (·.id)).Pairwise
        (· < ·) :=
  ⟨rfl,
   (id_alloc_monotone (V := Nat) (J := Nat) [("a", .ok 1), ("b", .ok 2)] 0
      [⟨.v2, "a", 1, 0⟩, ⟨.v2, "b", 2, 1⟩] 2 (by decide) rfl (by decide)).1,
   (id_alloc_monotone (V := Nat) (J := Nat) [("a", .ok 1), ("b", .ok 2)] 0
      [⟨.v2, "a", 1, 0⟩, ⟨.v2, "b", 2, 1⟩] 2 (by decide) rfl (by decide)).2.1⟩

/-- A batch whose params all serialize successfully always produces its
requests. -/
theorem intoRequests_replicate_ok {V J : Type} (name : String) (v : V) :
    ∀ (n : Nat) (c : Nat), ∃ reqs c',
      Batch.intoRequests (V := V) (J := J) (List.replicate n (name, Except.ok v)) c
        = .ok (reqs, c') := by
  intro n
  induction n with
  | zero => intro c; exact ⟨[], c, rfl⟩
  | succ m ih =>
    intro c
    obtain ⟨reqs, c', hr⟩ := ih ((c + 1) % 2 ^ 32)
    refine ⟨{ jsonrpc := .v2, method := name, params := v, id := c } :: reqs, c', ?_⟩
    simp only [List.replicate_succ, Batch.intoRequests, Request.new, Id.next, hr]

/-- Counterexample to C8 as stated: after `2 ^ 32` constructions the
`AtomicU32` counter wraps, so a sequence of `2 ^ 32 + 1` constructions
from a fresh client repeats id 0 — the allocated ids are neither
pairwise distinct nor strictly increasing for arbitrary `N`. -/
theorem id_alloc_wrap_cex :
    ¬ ∀ (reqs : List (Request Nat)) (c' : Nat),
        Batch.intoRequests
            (List.replicate (2 ^ 32 + 1) ("m", (Except.ok 0 : Except Unit Nat))) 0
          = .ok (reqs, c') →
        (reqs.map (·.id)).Nodup ∧ (reqs.map (·.id)).Pairwise (· < ·) := by
  intro hall
  obtain ⟨reqs, c', hok⟩ := intoRequests_replicate_ok "m" (0 : Nat) (2 ^ 32 + 1) 0
  obtain ⟨hnd, _⟩ := hall reqs c' hok
  obtain ⟨hids, _⟩ := intoRequests_ids _ 0 reqs c' (by norm_num) hok
  rw [List.length_replicate] at hids
  rw [hids] at hnd
  have h0 : (0 : Nat) ∈ List.range (2 ^ 32 + 1) := List.mem_range.mpr (by norm_num)
  have h1 : (2 ^ 32 : Nat) ∈ List.range (2 ^ 32 + 1) := List.mem_range.mpr (by norm_num)
  have heq : (fun i => (0 + i) % 2 ^ 32) (0 : Nat) = (fun i => (0 + i) % 2 ^ 32) (2 ^ 32) := by
    norm_num
  have := List.inj_on_of_nodup_map hnd h0 h1 heq
  norm_num at this

/-- Inserting into a list permutes consing onto it. -/
theorem insertByKey_perm {α : Type} (key : α → Nat) (a : α) :
    ∀ l : List α, (insertByKey key a l).Perm (a :: l) := by
  intro l
  induction l with
  | nil => exact List.Perm.refl _
  | cons b t ih =>
    simp only [insertByKey]
    by_cases h : key a ≤ key b
    · rw [if_pos h]
    · rw [if_neg h]
      exact (ih.cons b).trans (List.Perm.swap a b t)

/-- The key-sort permutes its input. -/
theorem sortByKey_perm {α : Type} (key : α → Nat) :
    ∀ l : List α, (sortByKey key l).Perm l := by
  intro l
  induction l with
  | nil => exact List.Perm.refl _
  | cons a t ih => exact (insertByKey_perm key a _).trans (ih.cons a)

/-- Inserting into a key-sorted list keeps it key-sorted. -/
theorem insertByKey_sorted {α : Type} (key : α → Nat) (a : α) :
    ∀ l : List α, l.Pairwise (fun x y => key x ≤ key y) →
      (insertByKey key a l).Pairwise (fun x y => key x ≤ key y) := by
  intro l
  induction l with
  | nil => intro _; simp [insertByKey]
  | cons b t ih =>
    intro hp
    obtain ⟨hb, ht⟩ := List.pairwise_cons.mp hp
    simp only [insertByKey]
    by_cases h : key a ≤ key b
    · rw [if_pos h]
      refine List.Pairwise.cons ?_ hp
      intro x hx
      rcases List.mem_cons.mp hx with rfl | hx'
      · exact h
      · exact Nat.le_trans h (hb x hx')
    · rw [if_neg h]
      refine List.Pairwise.cons ?_ (ih ht)
      intro x hx
      have hx' := (insertByKey_perm key a t).mem_iff.mp hx
      rcases List.mem_cons.mp hx' with rfl | hx''
      · exact Nat.le_of_lt (Nat.lt_of_not_le h)
      · exact hb x hx''

/-- The key-sort produces a key-sorted list. -/
theorem sortByKey_sorted {α : Type} (key : α → Nat) :
    ∀ l : List α, (sortByKey key l).Pairwise (fun x y => key x ≤ key y) := by
  intro l
  induction l with
  | nil => exact List.Pairwise.nil
  | cons a t ih => exact insertByKey_sorted key a _ ih

/-- Two key-sorted permutations of each other with pairwise-distinct
keys are equal — the reason sorting the batch responses by id restores
exactly the submission order. -/
theorem perm_sorted_unique {α : Type} (key : α → Nat) :
    ∀ (l₁ l₂ : List α), l₁.Perm l₂ →
      l₁.Pairwise (fun x y => key x ≤ key y) →
      l₂.Pairwise (fun x y => key x ≤ key y) →
      (l₁.map key).Nodup → l₁ = l₂ := by
  intro l₁
  induction l₁ with
  | nil =>
    intro l₂ hp _ _ _
    exact (List.Perm.eq_nil hp.symm).symm
  | cons a t₁ ih =>
    intro l₂ hp hs₁ hs₂ hnd
    cases l₂ with
    | nil =>
      have := List.Perm.eq_nil hp
      cases this
    | cons b t₂ =>
      have hab : a = b := by
        by_contra hne
        have hbmem : b ∈ a :: t₁ := hp.mem_iff.mpr (List.mem_cons_self b t₂)
        have hamem : a ∈ b :: t₂ := hp.mem_iff.mp (List.mem_cons_self a t₁)
        have hb_t₁ : b ∈ t₁ := by
          rcases List.mem_cons.mp hbmem with h | h
          · exact absurd h.symm hne
          · exact h
        have ha_t₂ : a ∈ t₂ := by
          rcases List.mem_cons.mp hamem with h | h
          · exact absurd h hne
          · exact h
        have h₁ : key a ≤ key b := (List.pairwise_cons.mp hs₁).1 b hb_t₁
        have h₂ : key b ≤ key a := (List.pairwise_cons.mp hs₂).1 a ha_t₂
        have hk : key a = key b := Nat.le_antisymm h₁ h₂
        have hhead : key a ∉ t₁.map key :=
          (List.nodup_cons.mp (by simpa using hnd)).1
        exact hhead (hk ▸ List.mem_map_of_mem key hb_t₁)
      subst hab
      have hp' : t₁.Perm t₂ := hp.cons_inv
      have ht := ih t₂ hp' (List.pairwise_cons.mp hs₁).2 (List.pairwise_cons.mp hs₂).2
        ((List.nodup_cons.mp (by simpa using hnd)).2)
      rw [ht]

/-- C1 (amended): batch correlation round-trip — for a batch whose ids
are allocated without wrapping the 32-bit counter (`c + K ≤ 2 ^ 32`), if
the roundtrip returns any permutation of per-request responses each
carrying the id of its own request, `try_call` reconstructs the per-call
results in original submission order: the i-th result is decoded from
the response answering the i-th request. -/
theorem batch_correlation_roundtrip {V J T R : Type} (decode : V → Except J R)
    (batch : List (String × Except J V))
    (roundtrip : List (Request V) → Except (HttpClientError V J T) (List (Response V)))
    (c c' : Nat) (reqs : List (Request V)) (ids : List Nat)
    (answer : Request V → Response V)
    (responses : List (Response V))
    (hinv : c < 2 ^ 32)
    (hreq : Batch.requests batch c = .ok ((reqs, ids), c'))
    (hnw : c + batch.length ≤ 2 ^ 32)
    (hans : ∀ req ∈ reqs, (answer req).id = some req.id)
    (hperm : responses.Perm (reqs.map answer))
    (hrt : roundtrip reqs = .ok responses) :
    Batch.tryCall decode batch roundtrip c
      = match Batch.fromResponses decode (reqs.map answer) with
        | .error e => .error (.json e)
        | .ok rs => .ok rs := by
  obtain ⟨hi, hids⟩ := requests_inv hreq
  subst hids
  obtain ⟨hidm, _⟩ := intoRequests_ids batch c reqs c' hinv hi
  have hlenr : reqs.length = batch.length := intoRequests_length _ _ _ _ hi
  have hidm' : reqs.map (·.id) = (List.range batch.length).map (c + ·) := by
    rw [hidm]
    apply List.map_congr_left
    intro i hi'
    have : i < batch.length := List.mem_range.mp hi'
    omega
  have hnodup : (reqs.map (·.id)).Nodup := by
    rw [hidm']
    exact (List.nodup_range batch.length).map fun a b hab => by omega
  have hpw_ids : (reqs.map (·.id)).Pairwise (· < ·) := by
    rw [hidm']
    exact (List.pairwise_lt_range batch.length).map _
      (fun a b hab => Nat.add_lt_add_left hab c)
  have hpw_reqs : reqs.Pairwise (fun r₁ r₂ => r₁.id < r₂.id) :=
    List.pairwise_map.mp hpw_ids
  have key_eq : ∀ req ∈ reqs, (answer req).id.getD 0 = req.id := by
    intro req hreqm
    rw [hans req hreqm]
    rfl
  have hsorted_orig : (reqs.map answer).Pairwise
      (fun x y => x.id.getD 0 ≤ y.id.getD 0) := by
    rw [List.pairwise_map]
    refine hpw_reqs.imp_of_mem ?_
    intro r₁ r₂ h₁ h₂ hlt
    rw [key_eq r₁ h₁, key_eq r₂ h₂]
    exact Nat.le_of_lt hlt
  have hkeys_orig : ((reqs.map answer).map (fun r => r.id.getD 0)).Nodup := by
    rw [List.map_map]
    have hmc : reqs.map ((fun r => r.id.getD 0) ∘ answer) = reqs.map (·.id) := by
      apply List.map_congr_left
      intro req hreqm
      simp only [Function.comp_apply]
      exact key_eq req hreqm
    rw [hmc]
    exact hnodup
  have hsp : (sortByKey (fun r => r.id.getD 0) responses).Perm (reqs.map answer) :=
    (sortByKey_perm _ responses).trans hperm
  have hkeys_sorted : ((sortByKey (fun r => r.id.getD 0) responses).map
      (fun r => r.id.getD 0)).Nodup :=
    ((hsp.map _).nodup_iff).mpr hkeys_orig
  have hsort : sortByKey (fun r => r.id.getD 0) responses = reqs.map answer :=
    perm_sorted_unique _ _ _ hsp (sortByKey_sorted _ responses) hsorted_orig hkeys_sorted
  have hlen₂ : responses.length = reqs.length := by
    rw [hperm.length_eq, List.length_map]
  have hguard₁ : ((reqs.map (·.id)).length != responses.length) = false := by
    simp [hlen₂]
  have hguard₂ : (responses.any fun r => r.id.isNone) = false := by
    rw [List.any_eq_false]
    intro r hr
    have hr' : r ∈ reqs.map answer := hperm.mem_iff.mp hr
    obtain ⟨req, hreqm, rfl⟩ := List.mem_map.mp hr'
    simp [hans req hreqm]
  have hguard₃ : (((sortByKey (fun r => r.id.getD 0) responses).zip
      (reqs.map (·.id))).any fun p => p.1.id.getD 0 != p.2) = false := by
    rw [hsort, List.zip_map', List.any_eq_false]
    intro p hp
    obtain ⟨req, hreqm, rfl⟩ := List.mem_map.mp hp
    simp [key_eq req hreqm]
  unfold Batch.tryCall
  simp only [hreq, hrt]
  unfold Batch.results
  rw [if_neg (by simp [hlen₂, hguard₂]), if_neg (by simp [hguard₃]), hsort]

/-- Counterexample to C1 as stated: with the id counter at `2 ^ 32 - 1`
(the state reached after `2 ^ 32` allocations), a two-call batch is
assigned the wrapped id sequence `[2 ^ 32 - 1, 0]`; the node answers
every request with a response carrying that request's own id, in the
very same order, yet `try_call` fails with the batch correlation error
instead of reconstructing the results: the sort-by-id correlation step
assumes the allocated ids are monotonic, which the wrapping counter
violates. -/
theorem batch_correlation_wrap_cex :
    Batch.tryCall (V := Nat) (J := Nat) (T := Unit)
        (fun v : Nat => (Except.ok v : Except Nat Nat))
        [("a", .ok 1), ("b", .ok 2)]
        (fun reqs => .ok (reqs.map fun req => ⟨.v2, .ok req.params, some req.id⟩))
        (2 ^ 32 - 1)
      = .error .batch
    ∧ (Except.error .batch
        : Except (HttpClientError Nat Nat Unit) (List (Except (RpcError Nat) Nat)))
      ≠ .ok [.ok 1, .ok 2] :=
  ⟨rfl, by decide⟩

/-- Witness for C1 (amended): a two-call batch from a fresh client, with
the two responses returned in reversed wire order (ids intact), decodes
to the results in submission order. -/
theorem batch_correlation_roundtrip_witness :
    Batch.tryCall (V := Nat) (J := Nat) (T := Unit)
        (fun v : Nat => (Except.ok v : Except Nat Nat))
        [("a", .ok 1), ("b", .ok 2)]
        (fun _ => .ok [⟨.v2, .ok 102, some 1⟩, ⟨.v2, .ok 101, some 0⟩]) 0
      = .ok [Except.ok 101, Except.ok 102] :=
  (batch_correlation_roundtrip
      (fun v : Nat => (Except.ok v : Except Nat Nat))
      [("a", .ok 1), ("b", .ok 2)]
      (fun _ => .ok [⟨.v2, .ok 102, some 1⟩, ⟨.v2, .ok 101, some 0⟩])
      0 2 [⟨.v2, "a", 1, 0⟩, ⟨.v2, "b", 2, 1⟩] [0, 1]
      (fun req => ⟨.v2, .ok (req.params + 100), some req.id⟩)
      [⟨.v2, .ok 102, some 1⟩, ⟨.v2, .ok 101, some 0⟩]
      (by decide) rfl (by decide) (by decide)
      (List.Perm.swap (⟨.v2, .ok 101, some 0⟩ : Response Nat)
        (⟨.v2, .ok 102, some 1⟩ : Response Nat) [])
      rfl).trans rfl

/-- C7: Result-over-error precedence — deserializing a response object
that carries both a `result` and an `error` field yields a `Response`
holding the success value, discarding the error; with only an `error`
field present the `Response` holds that error. -/
theorem response_result_precedence {V : Type} :
    (∀ (fields : List (ResponseField V)) (resp : Response V) (r : V),
        deserializeResponse fields = .ok resp →
        ResponseField.result r ∈ fields → resp.result = .ok r)
    ∧ (∀ (fields : List (ResponseField V)) (resp : Response V) (e : RpcError V),
        deserializeResponse fields = .ok resp →
        (∀ v : V, ResponseField.result v ∉ fields) →
        ResponseField.error e ∈ fields → resp.result = .error e) := by
  constructor
  · intro fields resp r h hmem
    unfold deserializeResponse at h
    cases hv : visitLoop fields ⟨none, none, none, none⟩ with
    | error e => simp only [hv] at h; cases h
    | ok acc =>
      have hres : acc.result = some r := visitLoop_result_mem r fields _ _ _ _ _ hv hmem
      simp only [hv] at h
      cases hj : acc.jsonrpc with
      | none => simp only [hj] at h; cases h
      | some v =>
        simp only [hj, hres] at h
        cases h
        rfl
  · intro fields resp e h hno hmem
    unfold deserializeResponse at h
    cases hv : visitLoop fields ⟨none, none, none, none⟩ with
    | error e' => simp only [hv] at h; cases h
    | ok acc =>
      have hres : acc.result = none := visitLoop_result_none fields _ _ _ _ hv hno
      have herr : acc.error = some e := visitLoop_error_mem e fields _ _ _ _ _ hv hmem
      simp only [hv] at h
      cases hj : acc.jsonrpc with
      | none => simp only [hj] at h; cases h
      | some v =>
        simp only [hj, hres, herr] at h
        cases h
        rfl

/-- Witness for C7: a concrete response object with both fields decodes
to the `result` value, and one with only an `error` field decodes to
that error. -/
theorem response_result_precedence_witness :
    deserializeResponse
        [ResponseField.jsonrpc .v2, ResponseField.result (7 : Nat),
         ResponseField.error ⟨.other 5, "boom", 0⟩, ResponseField.id 3]
      = .ok { jsonrpc := .v2, result := .ok 7, id := some 3 }
    ∧ ({ jsonrpc := .v2, result := .ok 7, id := some 3 } : Response Nat).result = .ok 7
    ∧ deserializeResponse
        [ResponseField.jsonrpc .v2,
         ResponseField.error (⟨.other 5, "boom", (0 : Nat)⟩ : RpcError Nat)]
      = .ok { jsonrpc := .v2, result := .error ⟨.other 5, "boom", 0⟩, id := none }
    ∧ ({ jsonrpc := .v2, result := .error ⟨.other 5, "boom", 0⟩, id := none }
        : Response Nat).result = .error ⟨.other 5, "boom", 0⟩ :=
  ⟨rfl,
   response_result_precedence.1
     [ResponseField.jsonrpc .v2, ResponseField.result (7 : Nat),
      ResponseField.error ⟨.other 5, "boom", 0⟩, ResponseField.id 3]
     { jsonrpc := .v2, result := .ok 7, id := some 3 } 7 rfl
     (by simp),
   rfl,
   response_result_precedence.2
     [ResponseField.jsonrpc .v2,
      ResponseField.error (⟨.other 5, "boom", (0 : Nat)⟩ : RpcError Nat)]
     { jsonrpc := .v2, result := .error ⟨.other 5, "boom", 0⟩, id := none }
     ⟨.other 5, "boom", 0⟩ rfl
     (by intro v hv; simp at hv)
     (by simp)⟩

/-- C10: a response object with a `jsonrpc` field but neither a `result`
nor an `error` field fails to deserialize (with a decode error), so a
well-formed `Response` always holds either a result value or an error. -/
theorem response_requires_result_or_error {V : Type} :
    ∀ (fields : List (ResponseField V)),
      (∀ v : V, ResponseField.result v ∉ fields) →
      (∀ e : RpcError V, ResponseField.error e ∉ fields) →
      ∀ resp : Response V, deserializeResponse fields ≠ .ok resp := by
  intro fields hnores hnoerr resp h
  unfold deserializeResponse at h
  cases hv : visitLoop fields ⟨none, none, none, none⟩ with
  | error e => simp only [hv] at h; cases h
  | ok acc =>
    have hres : acc.result = none := visitLoop_result_none fields _ _ _ _ hv hnores
    have herr : acc.error = none := visitLoop_error_none fields _ _ _ _ hv hnoerr
    simp only [hv] at h
    cases hj : acc.jsonrpc with
    | none => simp only [hj] at h; cases h
    | some v => simp only [hj, hres, herr] at h; cases h

/-- Witness for C10: a concrete object carrying only `jsonrpc` and `id`
fields is rejected, with the exact decode error of the source. -/
theorem response_requires_result_or_error_witness :
    deserializeResponse [ResponseField.jsonrpc (V := Nat) .v2, ResponseField.id 7]
      ≠ .ok { jsonrpc := .v2, result := .ok 0, id := some 7 }
    ∧ deserializeResponse [ResponseField.jsonrpc (V := Nat) .v2, ResponseField.id 7]
      = .error (.custom "missing result or error field") :=
  ⟨response_requires_result_or_error
     [ResponseField.jsonrpc (V := Nat) .v2, ResponseField.id 7]
     (by intro v hv; simp at hv)
     (by intro e he; simp at he)
     { jsonrpc := .v2, result := .ok 0, id := some 7 },
   rfl⟩

/-- C6: ErrorCode integer round-trip — for every integer `c`, decoding
`c` into an `ErrorCode` tag and re-encoding yields `c` back; the five
dedicated codes map to their dedicated tags, `-32099..=-32000` maps to
`ServerError`, the remaining `-32768..=-32100` map to `Reserved`, and
everything outside `-32768..=-32000` maps to `Other`. -/
theorem errorCode_roundtrip :
    (∀ c : Int, (ErrorCode.fromI32 c).toI32 = c)
    ∧ ErrorCode.fromI32 (-32700) = .parseError
    ∧ ErrorCode.fromI32 (-32600) = .invalidRequest
    ∧ ErrorCode.fromI32 (-32601) = .methodNotFound
    ∧ ErrorCode.fromI32 (-32602) = .invalidParams
    ∧ ErrorCode.fromI32 (-32603) = .internalError
    ∧ (∀ c : Int, -32099 ≤ c → c ≤ -32000 → ErrorCode.fromI32 c = .serverError c)
    ∧ (∀ c : Int, -32768 ≤ c → c ≤ -32100 →
        c ≠ -32700 → c ≠ -32600 → c ≠ -32601 → c ≠ -32602 → c ≠ -32603 →
        ErrorCode.fromI32 c = .reserved c)
    ∧ (∀ c : Int, c < -32768 ∨ -32000 < c → ErrorCode.fromI32 c = .other c) := by
  refine ⟨?_, by decide, by decide, by decide, by decide, by decide, ?_, ?_, ?_⟩
  · intro c
    unfold ErrorCode.fromI32
    split_ifs with h₁ h₂ h₃ h₄ h₅ h₆ h₇ <;> simp [ErrorCode.toI32, *]
  · intro c h₁ h₂
    unfold ErrorCode.fromI32
    split_ifs <;> first | rfl | omega
  · intro c h₁ h₂ n₁ n₂ n₃ n₄ n₅
    unfold ErrorCode.fromI32
    split_ifs <;> first | rfl | omega
  · intro c h
    unfold ErrorCode.fromI32
    split_ifs <;> first | rfl | omega

/-- Witness for C6 at concrete inputs: a server error code, a reserved
code and a catch-all code round-trip through their expected tags. -/
theorem errorCode_roundtrip_witness :
    (ErrorCode.fromI32 (-32050)).toI32 = -32050
    ∧ ErrorCode.fromI32 (-32050) = .serverError (-32050)
    ∧ ErrorCode.fromI32 (-32150) = .reserved (-32150)
    ∧ ErrorCode.fromI32 (-1) = .other (-1) :=
  ⟨errorCode_roundtrip.1 (-32050),
   errorCode_roundtrip.2.2.2.2.2.2.1 (-32050) (by decide) (by decide),
   errorCode_roundtrip.2.2.2.2.2.2.2.1 (-32150) (by decide) (by decide)
     (by decide) (by decide) (by decide) (by decide) (by decide),
   errorCode_roundtrip.2.2.2.2.2.2.2.2 (-1) (Or.inr (by decide))⟩

end Ethrpc
